import Mathlib

/-!
Verification of the history-retention subsystem of the All-seeing-bot
repository: a shallow embedding, in Lean, of the Hot Cache
(src/database/cache.py), the edit reconciler and deletion batch processor
(src/handlers/business.py), the backup manager (src/storage/manager.py),
the Durable Store adapter (src/database/messages.py) and the history merge
of the Cold Archive read path, together with proofs and refutations of the
specified properties.

Modelling conventions:
- Python dict-shaped message records become the structure MsgRec.  The
  field file_id holds the media fingerprint that the source extracts from
  extra_data with extract_file_id; a Python value that is None or falsy
  (empty string) is modelled as Option.none.
- The OrderedDict of MessageCache becomes a list of key/value pairs with
  the least-recently-used entry first; move_to_end becomes filter-out plus
  append, popitem(last=False) becomes dropping from the front.
- Remote calls are modelled by their observable effect on explicit store
  states; a remote failure is an explicit Bool/Remote parameter (fault
  injection).  asyncio.to_thread / create_task wrappers are transparent:
  the embedded functions perform the store transitions directly.
-/

/-- Composite key of a Message Record: (owner_id, chat_id, message_id). -/
structure MsgKey where
  owner_id : Int
  chat_id : Int
  message_id : Int
deriving DecidableEq

/-- A stored message record (the dict written by handle_business_message in
src/handlers/business.py).  Fields not used by any claim (sender data,
durations, sizes) are omitted; file_id is the fingerprint extracted from
extra_data by extract_file_id. -/
structure MsgRec where
  owner_id : Int
  chat_id : Int
  message_id : Int
  timestamp : String
  is_outgoing : Bool
  content_type : String
  message_text : Option String
  file_id : Option String
deriving DecidableEq

/-- The composite key carried by a record. -/
def keyOf (m : MsgRec) : MsgKey :=
  { owner_id := m.owner_id, chat_id := m.chat_id, message_id := m.message_id }

/-! ## Hot Cache (class MessageCache, src/database/cache.py)

The cache is a list of key/value pairs ordered with the least-recently-used
entry first, mirroring the OrderedDict; maxSize mirrors max_size. -/

/-- The while-loop of MessageCache.set: pop entries from the
least-recently-used end while the size exceeds the capacity. -/
def evictTo {K V : Type} (maxSize : Nat) (c : List (K × V)) : List (K × V) :=
  c.drop (c.length - maxSize)

/-- MessageCache.set: delete the old entry if present, append at the
most-recently-used end, then evict from the least-recently-used end while
the size exceeds the capacity. -/
def cacheSet {K V : Type} [DecidableEq K] (maxSize : Nat)
    (c : List (K × V)) (k : K) (v : V) : List (K × V) :=
  evictTo maxSize (c.filter (fun p => p.1 ≠ k) ++ [(k, v)])

/-- MessageCache.get: on a hit, move the entry to the most-recently-used
end and return (a copy of) the value; on a miss, leave the cache alone. -/
def cacheGet {K V : Type} [DecidableEq K]
    (c : List (K × V)) (k : K) : Option V × List (K × V) :=
  match c.find? (fun p => p.1 = k) with
  | some p => (some p.2, c.filter (fun q => q.1 ≠ k) ++ [(k, p.2)])
  | none => (none, c)

/-- Pure lookup (the value MessageCache.get would return, without the
recency promotion). -/
def lookupCache {K V : Type} [DecidableEq K] (c : List (K × V)) (k : K) : Option V :=
  (c.find? (fun p => p.1 = k)).map Prod.snd

/-- MessageCache.update: if the key is present, apply the field updates to
the stored record and move it to the most-recently-used end; no-op if
absent. -/
def cacheUpdateRec {K V : Type} [DecidableEq K]
    (c : List (K × V)) (k : K) (f : V → V) : List (K × V) :=
  match c.find? (fun p => p.1 = k) with
  | some p => c.filter (fun q => q.1 ≠ k) ++ [(k, f p.2)]
  | none => c

/-- MessageCache.delete: remove the entry for the key if present. -/
def cacheDeleteKey {K V : Type} [DecidableEq K]
    (c : List (K × V)) (k : K) : List (K × V) :=
  c.filter (fun p => p.1 ≠ k)

/-! ## LRU residency model for claim C5

A touch is an insertion by set or a successful get.  touchList maintains
the distinct touched keys in recency order, most recent last; lastN n l is
the suffix of the last n elements. -/

/-- The last n elements of a list. -/
def lastN {α : Type} (n : Nat) (l : List α) : List α :=
  l.drop (l.length - n)

/-- Record a touch of key k: move (or insert) k at the most-recent end. -/
def touchKey {K : Type} [DecidableEq K] (t : List K) (k : K) : List K :=
  t.filter (fun x => x ≠ k) ++ [k]

/-- One cache operation of a set/get sequence. -/
inductive CacheOp (K V : Type) where
  | setOp (k : K) (v : V)
  | getOp (k : K)

/-- Run one operation on the pair (cache state, touch recency list).
A get of an absent key touches nothing. -/
def cacheStep {K V : Type} [DecidableEq K] (maxSize : Nat)
    (s : List (K × V) × List K) (op : CacheOp K V) : List (K × V) × List K :=
  match op with
  | .setOp k v => (cacheSet maxSize s.1 k v, touchKey s.2 k)
  | .getOp k =>
    match cacheGet s.1 k with
    | (some _, c2) => (c2, touchKey s.2 k)
    | (none, _) => s

/-- Run a whole operation sequence from the empty cache. -/
def cacheRun {K V : Type} [DecidableEq K] (maxSize : Nat)
    (ops : List (CacheOp K V)) : List (K × V) × List K :=
  ops.foldl (cacheStep maxSize) ([], [])

/-! ## Store state shared by the handlers

The Hot Cache instance message_cache together with the Durable Store
messages table (the rows MessagesDB operates on). -/

/-- In-process cache plus remote messages table. -/
structure Stores where
  cache : List (MsgKey × MsgRec)
  db : List MsgRec
deriving DecidableEq

/-- MessagesDB.delete: remove every row matching the composite key. -/
def dbDeleteRows (db : List MsgRec) (k : MsgKey) : List MsgRec :=
  db.filter (fun m => keyOf m ≠ k)

/-- The snapshot lookup shared by the edit and delete handlers: Hot Cache
first (promoting recency on a hit), Durable Store on a cache miss. -/
def resolveMsg (s : Stores) (k : MsgKey) : Option MsgRec × Stores :=
  match cacheGet s.cache k with
  | (some v, c2) => (some v, { cache := c2, db := s.db })
  | (none, _) =>
    match s.db.find? (fun m => keyOf m = k) with
    | some m => (some m, s)
    | none => (none, s)

/-! ## Edit reconciler (handle_edited_business_message, src/handlers/business.py) -/

/-- The Python normalization x or "[пусто]" applied to the optional text:
both None and the empty string collapse to the sentinel. -/
def normText (t : Option String) : String :=
  match t with
  | none => "[пусто]"
  | some s => if s = "" then "[пусто]" else s

/-- The text_changed delta of the edit reconciler:
new_text != old_text after the or-"[пусто]" normalization of both sides. -/
def text_changed (oldText newText : Option String) : Bool :=
  normText newText != normText oldText

/-- The media_changed delta: true only when both the stored and the new
extracted file_id are present (truthy) and differ. -/
def media_changed (oldFileId newFileId : Option String) : Bool :=
  match newFileId, oldFileId with
  | some nf, some f0 => nf != f0
  | _, _ => false

/-- The rendered notification classes of the edit handler (message bodies
and the accompanying before/after media resends are abstracted to the
class and the compared values). -/
inductive EditNotif where
  | mediaComparison (oldType newType : String)
  | captionEdit (mediaType oldText newText : String)
  | plainTextEdit (oldText newText : String)
deriving DecidableEq

/-- The incoming edit event: the owner settings row, direction, composite
key and the new content snapshot produced by get_content_type plus
extract_file_id. -/
structure EditInput where
  notifyOnEdit : Bool
  isOutgoing : Bool
  key : MsgKey
  newType : String
  newText : Option String
  newFileId : Option String
deriving DecidableEq

/-- The notification classification of the edit handler (the four
mutually exclusive rendering cases, checked in source order). -/
def editNotifOf (inp : EditInput) (stored : MsgRec) : EditNotif :=
  if (inp.newType != stored.content_type
        || media_changed stored.file_id inp.newFileId)
      && !(text_changed stored.message_text inp.newText) then
    EditNotif.mediaComparison stored.content_type inp.newType
  else if inp.newType != "text" then
    EditNotif.captionEdit inp.newType (normText stored.message_text)
      (normText inp.newText)
  else
    EditNotif.plainTextEdit (normText stored.message_text) (normText inp.newText)

/-- The field update applied by the edit handler to the stored record:
message_text := new_text (already normalized), content_type := new type,
extra_data/file_id := the new fingerprint. -/
def editUpd (inp : EditInput) (v : MsgRec) : MsgRec :=
  { v with
    message_text := some (normText inp.newText)
    content_type := inp.newType
    file_id := inp.newFileId }

/-- The store side effects of a non-discarded edit: update the Hot Cache
entry synchronously and the matching Durable Store rows (fire-and-forget
write, modelled as applied). -/
def applyEditUpdate (inp : EditInput) (s1 : Stores) : Stores :=
  ⟨cacheUpdateRec s1.cache inp.key (editUpd inp),
    s1.db.map (fun m => if keyOf m = inp.key then editUpd inp m else m)⟩

/-- handle_edited_business_message: resolve the stored snapshot (cache
first, Durable Store second; discard if absent), apply the outgoing
suppression setting, compute the three deltas (type_changed,
text_changed, media_changed), discard no-op edits, otherwise classify,
send one notification and apply the store updates. -/
def handleEdit (inp : EditInput) (s : Stores) : List EditNotif × Stores :=
  match resolveMsg s inp.key with
  | (none, s1) => ([], s1)
  | (some stored, s1) =>
    if inp.isOutgoing && !inp.notifyOnEdit then ([], s1)
    else if !(inp.newType != stored.content_type)
        && !(text_changed stored.message_text inp.newText)
        && !(media_changed stored.file_id inp.newFileId) then ([], s1)
    else
      ([editNotifOf inp stored], applyEditUpdate inp s1)

/-! ## Claim C3: outgoing suppression in the edit handler -/

/-- Concrete scenario for claim C3: an outgoing message whose owner has
notify_on_edit disabled, edited from text "old" to text "new". -/
def kC3 : MsgKey := ⟨1, 2, 5⟩

def recC3 : MsgRec :=
  ⟨1, 2, 5, "2024-01-01T00:00:00+00:00", true, "text", some "old", none⟩

def storesC3 : Stores := ⟨[(kC3, recC3)], [recC3]⟩

def editInpC3 : EditInput := ⟨false, true, kC3, "text", some "new", none⟩

/-- Concrete no-op edit scenario: identical text, type and fingerprint. -/
def kC9 : MsgKey := ⟨1, 3, 7⟩

def recC9 : MsgRec :=
  ⟨1, 3, 7, "2024-02-02T00:00:00+00:00", false, "photo", some "cap", some "F1"⟩

def storesC9 : Stores := ⟨[(kC9, recC9)], [recC9]⟩

def editInpC9 : EditInput := ⟨true, false, kC9, "photo", some "cap", some "F1"⟩

/-! ## Deletion Batch Processor (handle_deleted_business_messages,
src/handlers/business.py, grouping pass)

A notification unit is one emitted notification: a single text message, a
text batch summary, a single media/sticker item (send_media_item), or a
collapsed sticker group (the grouped header plus its one representative
media attachment count as the one unit they form). -/

/-- One emitted notification unit of the deletion flow. -/
inductive NotifUnit where
  | textSingle (m : MsgRec)
  | textSummary (ms : List MsgRec)
  | mediaSingle (m : MsgRec)
  | stickerGroup (count : Nat) (sample : MsgRec)
deriving DecidableEq

/-- send_text_batch: nothing for an empty buffer, a single detailed
notification for one message, one batch summary otherwise. -/
def sendTextBatch (batch : List MsgRec) : List NotifUnit :=
  match batch with
  | [] => []
  | [m] => [NotifUnit.textSingle m]
  | ms => [NotifUnit.textSummary ms]

/-- The open sticker run: current_sticker_id, current_sticker_count and
current_sticker_sample. -/
structure StickerRun where
  fid : Option String
  count : Nat
  sample : Option MsgRec
deriving DecidableEq

/-- The reset sticker-run state. -/
def emptyRun : StickerRun := ⟨none, 0, none⟩

/-- flush_sticker_group: with a positive count and a sample, emit one
collapsed group notification when the count exceeds one, else the sample
as a normal single item; then the caller resets the run. -/
def flushStickerGroup (r : StickerRun) : List NotifUnit :=
  match r.sample with
  | some smpl =>
    if r.count > 1 then [NotifUnit.stickerGroup r.count smpl]
    else if r.count > 0 then [NotifUnit.mediaSingle smpl]
    else []
  | none => []

/-- The fold state of the main sorting/sending loop: emitted units so
far, the text_buffer, and the open sticker run. -/
structure DelState where
  out : List NotifUnit
  textBuffer : List MsgRec
  run : StickerRun
deriving DecidableEq

/-- One iteration of the main loop over the resolved batch: a sticker
first flushes buffered texts, then either extends the run (same truthy
fingerprint) or flushes it and starts a new one; a non-sticker flushes
the sticker run, then a text is buffered while any other type flushes the
text buffer and is emitted on its own. -/
def delStep (st : DelState) (msg : MsgRec) : DelState :=
  if msg.content_type = "sticker" then
    let out1 := st.out ++ sendTextBatch st.textBuffer
    if msg.file_id.isSome && msg.file_id == st.run.fid then
      ⟨out1, [], ⟨st.run.fid, st.run.count + 1, st.run.sample⟩⟩
    else
      ⟨out1 ++ flushStickerGroup st.run, [], ⟨msg.file_id, 1, some msg⟩⟩
  else
    let out1 := st.out ++ flushStickerGroup st.run
    if msg.content_type = "text" then
      ⟨out1, st.textBuffer ++ [msg], emptyRun⟩
    else
      ⟨out1 ++ sendTextBatch st.textBuffer ++ [NotifUnit.mediaSingle msg], [],
        emptyRun⟩

/-- The full grouping pass: fold the loop over the resolved batch, then
flush the remaining sticker run and the remaining text buffer, in that
order. -/
def processBatch (msgs : List MsgRec) : List NotifUnit :=
  let fin := msgs.foldl delStep ⟨[], [], emptyRun⟩
  fin.out ++ flushStickerGroup fin.run ++ sendTextBatch fin.textBuffer

/-! ## Claim C4: the sticker-grouping example batch -/

/-- First sticker with fingerprint A. -/
def stickerA1 : MsgRec := ⟨1, 2, 10, "t1", false, "sticker", none, some "A"⟩

/-- Second sticker with fingerprint A. -/
def stickerA2 : MsgRec := ⟨1, 2, 11, "t2", false, "sticker", none, some "A"⟩

/-- Third sticker with fingerprint A. -/
def stickerA3 : MsgRec := ⟨1, 2, 12, "t3", false, "sticker", none, some "A"⟩

/-- The text message of the example batch. -/
def textHi : MsgRec := ⟨1, 2, 13, "t4", false, "text", some "hi", none⟩

/-- The trailing sticker with distinct fingerprint B. -/
def stickerB : MsgRec := ⟨1, 2, 14, "t5", false, "sticker", none, some "B"⟩

/-! ## Deletion notification flow trace (handle_deleted_business_messages)

The handler's observable actions on stores and sinks, in program order:
cache deletions, Durable Store deletions, the Cold Archive batch write
attempt of log_deleted_messages (its exception is swallowed, so it
carries a success flag and never interrupts the flow), and emitted
notifications. -/

/-- One observable action of the deletion handler. -/
inductive DelEvent where
  | cacheDelete (k : MsgKey)
  | dbDelete (k : MsgKey)
  | archiveAttempt (rows : List MsgRec) (ok : Bool)
  | notify (u : NotifUnit)
deriving DecidableEq

/-- State of the collection loop (step 1 of the handler): current stores,
events issued so far, and the accumulated deleted_messages batch. -/
structure CollectSt where
  stores : Stores
  events : List DelEvent
  batch : List MsgRec
deriving DecidableEq

/-- One iteration of the collection loop: resolve the id (cache first,
promoting, then Durable Store); skip unresolved ids; silently delete
suppressed outgoing records from both stores at once; append everything
else to the batch. -/
def collectStep (notify : Bool) (ownerId chatId : Int)
    (st : CollectSt) (msgId : Int) : CollectSt :=
  match resolveMsg st.stores ⟨ownerId, chatId, msgId⟩ with
  | (none, s2) => ⟨s2, st.events, st.batch⟩
  | (some m, s2) =>
    if m.is_outgoing && !notify then
      ⟨⟨cacheDeleteKey s2.cache ⟨ownerId, chatId, msgId⟩,
          dbDeleteRows s2.db ⟨ownerId, chatId, msgId⟩⟩,
        st.events ++ [DelEvent.cacheDelete ⟨ownerId, chatId, msgId⟩,
          DelEvent.dbDelete ⟨ownerId, chatId, msgId⟩],
        st.batch⟩
    else
      ⟨s2, st.events, st.batch ++ [m]⟩

/-- The deletion event as seen by the handler: the owner's notify_on_edit
setting, availability of the storage manager / Google logger, a fault
flag for the archive batch write, the chat identity, the deleted message
ids in order, and the initial stores. -/
structure DelInput where
  notifyOnEdit : Bool
  googleAvailable : Bool
  archiveOk : Bool
  ownerId : Int
  chatId : Int
  messageIds : List Int
  stores : Stores
deriving DecidableEq

/-- The whole collection loop of the handler. -/
def collectPhase (inp : DelInput) : CollectSt :=
  inp.messageIds.foldl (collectStep inp.notifyOnEdit inp.ownerId inp.chatId)
    ⟨inp.stores, [], []⟩

/-- log_deleted_messages rewrites content_type to "DELETED (type)" before
archiving. -/
def markDeleted (m : MsgRec) : MsgRec :=
  { m with content_type := "DELETED (" ++ m.content_type ++ ")" }

/-- StorageManager.log_deleted_messages: no-op when Google Sheets is
unavailable or the batch is empty; otherwise one batch_insert attempt
whose failure is logged and swallowed. -/
def logDeletedMessages (googleAvailable archiveOk : Bool)
    (batch : List MsgRec) : List DelEvent :=
  if googleAvailable && !batch.isEmpty then
    [DelEvent.archiveAttempt (batch.map markDeleted) archiveOk]
  else []

/-- The key used by the final purge loop of the handler: owner and chat
from the event, message_id from the stored record. -/
def purgeKey (inp : DelInput) (m : MsgRec) : MsgKey :=
  ⟨inp.ownerId, inp.chatId, m.message_id⟩

/-- Apply one purge deletion to the stores. -/
def purgeDelete (inp : DelInput) (s : Stores) (m : MsgRec) : Stores :=
  ⟨cacheDeleteKey s.cache (purgeKey inp m), dbDeleteRows s.db (purgeKey inp m)⟩

/-- handle_deleted_business_messages: collect and resolve the batch
(suppressed outgoing records are deleted immediately), return early if
nothing is left, otherwise archive the batch via log_deleted_messages,
emit the grouped notifications, and finally purge every batch record from
the Hot Cache and the Durable Store. -/
def handleDeleted (inp : DelInput) : List DelEvent × Stores :=
  let fin := collectPhase inp
  if fin.batch.isEmpty then (fin.events, fin.stores)
  else
    (fin.events
      ++ logDeletedMessages inp.googleAvailable inp.archiveOk fin.batch
      ++ (processBatch fin.batch).map DelEvent.notify
      ++ (fin.batch.map (fun m => [DelEvent.cacheDelete (purgeKey inp m),
            DelEvent.dbDelete (purgeKey inp m)])).flatten,
      fin.batch.foldl (purgeDelete inp) fin.stores)

/-- Claim C2 as stated: every Durable Store deletion issued by the
deletion flow is preceded by a successful archival write of a set
containing that record's key. -/
def archiveBeforeDelete (tr : List DelEvent) : Prop :=
  ∀ (i : Nat) (k : MsgKey), tr[i]? = some (DelEvent.dbDelete k) →
    ∃ (j : Nat) (rows : List MsgRec),
      j < i ∧ tr[j]? = some (DelEvent.archiveAttempt rows true)
        ∧ k ∈ rows.map keyOf

/-! ## Claim C2: counterexample and amended ordering theorem -/

/-- An outgoing record whose owner has notifications disabled. -/
def recOutC2 : MsgRec := ⟨1, 2, 10, "t1", true, "text", some "bye", none⟩

/-- An incoming record of the same deletion batch. -/
def recInC2 : MsgRec := ⟨1, 2, 11, "t2", false, "text", some "hello", none⟩

/-- Deletion event for both records, notify_on_edit disabled, archive
available and healthy. -/
def delInpC2 : DelInput := ⟨false, true, true, 1, 2, [10, 11], ⟨[], [recOutC2, recInC2]⟩⟩

/-! ## Resolution stability lemmas for the collection loop -/

/-- The suppression test of the collection loop: outgoing record with the
owner's notify_on_edit disabled. -/
def suppressible (notify : Bool) (m : MsgRec) : Bool := m.is_outgoing && !notify

/-- The record a resolution would return, without the state change. -/
def resolvePure (s : Stores) (k : MsgKey) : Option MsgRec := (resolveMsg s k).1

/-- Cache well-formedness: every entry is stored under its record's own
composite key (the handlers always insert records under their key). -/
def wfCache (c : List (MsgKey × MsgRec)) : Prop := ∀ p ∈ c, keyOf p.2 = p.1

/-- Invariant of the collection loop: the cache stays well-formed, every
key already deleted (suppressed) no longer resolves, and every batched
record still resolves to itself and is not suppressible. -/
def collectInv (notify : Bool) (st : CollectSt) : Prop :=
  wfCache st.stores.cache
    ∧ (∀ k, DelEvent.dbDelete k ∈ st.events → resolvePure st.stores k = none)
    ∧ (∀ m ∈ st.batch, resolvePure st.stores (keyOf m) = some m
        ∧ suppressible notify m = false)

/-! ## Backup manager (StorageManager.run_backup, src/storage/manager.py) -/

/-- One row of the backups audit table (BackupsDB.add,
src/database/backups.py). -/
structure BackupCycle where
  messages_count : Nat
  status : String
  error_message : Option String
deriving DecidableEq

/-- The result dict returned by run_backup. -/
structure BackupResult where
  success : Bool
  count : Nat
  error : Option String
deriving DecidableEq

/-- The observable outcome of one run_backup call: the returned result,
the Durable Store rows left after the run, the keys of the
MessagesDB.delete calls issued (in order), and the audit rows appended to
the backups table. -/
structure BackupOutcome where
  result : BackupResult
  db : List MsgRec
  deletedKeys : List MsgKey
  cycles : List BackupCycle
deriving DecidableEq

/-- The str(e) of the batch_insert exception, abstracted. -/
def archiveErrorText : String := "archive write failed"

/-- StorageManager.run_backup: fail fast when Google Sheets is
unavailable; read all messages (an empty read returns success with count
0 immediately); write the batch to the archive; if the write raises,
record a failed Backup Cycle and return with the Durable Store untouched;
otherwise delete each row whose owner_id, chat_id and message_id are all
truthy (non-zero) and record a successful cycle. -/
def run_backup (googleAvailable : Bool) (db : List MsgRec) (archiveOk : Bool) :
    BackupOutcome :=
  if !googleAvailable then
    ⟨⟨false, 0, some "Google Sheets недоступен"⟩, db, [], []⟩
  else if db.isEmpty then
    ⟨⟨true, 0, none⟩, db, [], []⟩
  else if archiveOk then
    let toDelete := db.filter
      (fun m => m.owner_id ≠ 0 && m.chat_id ≠ 0 && m.message_id ≠ 0)
    ⟨⟨true, db.length, none⟩,
      toDelete.foldl (fun d m => dbDeleteRows d (keyOf m)) db,
      toDelete.map keyOf,
      [⟨db.length, "success", none⟩]⟩
  else
    ⟨⟨false, 0, some archiveErrorText⟩, db, [],
      [⟨0, "failed", some archiveErrorText⟩]⟩

/-- A sample non-empty Durable Store row for the backup claims. -/
def recBk : MsgRec := ⟨1, 2, 3, "2024-03-03T00:00:00+00:00", false, "text", some "x", none⟩

/-! ## Durable Store adapter error handling (class MessagesDB,
src/database/messages.py)

Each operation issues one remote call; the parameter is the remote
outcome of that single attempt (the rows of response.data, or the raised
exception's message).  An operation wrapped in try/except returns its
default on error; get and get_by_chat have no try/except and propagate
the exception (modelled as Except.error). -/

/-- Outcome of one remote Supabase call. -/
inductive Remote (α : Type) where
  | ok (value : α)
  | err (msg : String)

/-- MessagesDB.get: no try/except — a remote error propagates to the
caller; on success, the first row or None. -/
def MessagesDB.get (resp : Remote (List MsgRec)) : Except String (Option MsgRec) :=
  match resp with
  | .ok rows => .ok rows.head?
  | .err e => .error e

/-- MessagesDB.get_by_chat: no try/except — a remote error propagates. -/
def MessagesDB.get_by_chat (resp : Remote (List MsgRec)) :
    Except String (List MsgRec) :=
  match resp with
  | .ok rows => .ok rows
  | .err e => .error e

/-- MessagesDB.add: try/except prints and returns None on error. -/
def MessagesDB.add (resp : Remote (List MsgRec)) : Option MsgRec :=
  match resp with
  | .ok rows => rows.head?
  | .err _ => none

/-- MessagesDB.update: try/except returns False on error. -/
def MessagesDB.update (resp : Remote Unit) : Bool :=
  match resp with
  | .ok _ => true
  | .err _ => false

/-- MessagesDB.delete: try/except returns False on error. -/
def MessagesDB.delete (resp : Remote Unit) : Bool :=
  match resp with
  | .ok _ => true
  | .err _ => false

/-- MessagesDB.count: try/except returns 0 on error, else the number of
returned id rows. -/
def MessagesDB.count (resp : Remote (List Nat)) : Nat :=
  match resp with
  | .ok rows => rows.length
  | .err _ => 0

/-! ## History query merge (claim C6)

GoogleLogger.fetch_logs (src/storage/google_sheets.py) returns the
archived records for an (owner, chat) scope and MessagesDB.get_by_chat
returns the live ones, but no caller in src/ combines them: the merge
routine itself is not part of the repository sources. -/

/-- Insert one record into a timestamp-descending list. -/
def insertDesc (m : MsgRec) : List MsgRec → List MsgRec
  | [] => [m]
  | x :: xs => if x.timestamp ≤ m.timestamp then m :: x :: xs
      else x :: insertDesc m xs

/-- Sort records by timestamp descending (insertion sort). -/
def sortDesc : List MsgRec → List MsgRec
  | [] => []
  | x :: xs => insertDesc x (sortDesc xs)

/-- Modelled from the spec: the deduplication step of the history query
merge, which is missing from src/ (fetch_logs has no caller there) —
"Merge by composite key with Durable Store taking precedence on conflict":
all live Durable Store records, plus exactly those Cold Archive records
whose composite key does not occur in the Durable Store result. -/
def mergedByKey (durable archive : List MsgRec) : List MsgRec :=
  durable ++ archive.filter (fun a => durable.all (fun d => keyOf d ≠ keyOf a))

/-- Modelled from the spec: the full history query merge, missing from
src/ — merge by composite key with Durable Store precedence, sort by
timestamp descending, truncate to the maximum result size. -/
def mergeHistory (limit : Nat) (durable archive : List MsgRec) : List MsgRec :=
  (sortDesc (mergedByKey durable archive)).take limit

/-- The live (Durable Store) version of the conflicting record. -/
def dC6 : MsgRec := ⟨1, 2, 20, "2024-05-01T10:00:00", false, "text", some "current", none⟩

/-- The archived (Cold Archive) version of the same composite key with
different text. -/
def aC6 : MsgRec := ⟨1, 2, 20, "2024-04-01T10:00:00", false, "text", some "stale", none⟩

/-! ## Lemmas and theorems -/

/-! ## List lemmas for the LRU invariant -/

lemma lastN_length_le {α : Type} (n : Nat) (l : List α) : (lastN n l).length ≤ n := by
  simp only [lastN, List.length_drop]
  omega

lemma lastN_of_length_le {α : Type} (n : Nat) (l : List α) (h : l.length ≤ n) :
    lastN n l = l := by
  have h0 : l.length - n = 0 := by omega
  simp [lastN, h0]

lemma lastN_zero {α : Type} (l : List α) : lastN 0 l = [] := by
  simp [lastN]

lemma lastN_append_singleton {α : Type} (n : Nat) (l : List α) (x : α) :
    lastN (n + 1) (l ++ [x]) = lastN n l ++ [x] := by
  unfold lastN
  have h1 : (l ++ [x]).length = l.length + 1 := by simp
  rw [h1]
  have h2 : l.length + 1 - (n + 1) = l.length - n := by omega
  rw [h2]
  exact List.drop_append_of_le_length (by omega)

lemma lastN_append_left {α : Type} (n : Nat) (l1 l2 : List α) (h : n ≤ l2.length) :
    lastN n (l1 ++ l2) = lastN n l2 := by
  unfold lastN
  have h1 : (l1 ++ l2).length = l1.length + l2.length := by simp
  rw [h1]
  have h2 : l1.length + l2.length - n = l1.length + (l2.length - n) := by omega
  rw [h2, List.drop_append]

lemma filter_ne_eq_bne {α : Type} [DecidableEq α] (l : List α) (k : α) :
    l.filter (fun x => x ≠ k) = l.filter (fun x => x != k) := by
  apply List.filter_congr
  intro x _
  by_cases h : x = k <;> simp [h]

lemma length_filter_ne_of_mem {α : Type} [DecidableEq α] (l : List α) (k : α)
    (h : l.Nodup) (hk : k ∈ l) :
    (l.filter (fun x => x ≠ k)).length = l.length - 1 := by
  rw [filter_ne_eq_bne l k, ← h.erase_eq_filter k]
  exact List.length_erase_of_mem hk

lemma length_filter_ne_ge {α : Type} [DecidableEq α] (l : List α) (k : α)
    (h : l.Nodup) : l.length - 1 ≤ (l.filter (fun x => x ≠ k)).length := by
  by_cases hk : k ∈ l
  · rw [length_filter_ne_of_mem l k h hk]
  · have hself : l.filter (fun x => x ≠ k) = l := by
      rw [List.filter_eq_self]
      intro a ha
      simp only [ne_eq, decide_eq_true_eq]
      intro hak
      exact hk (hak ▸ ha)
    rw [hself]
    omega

lemma lastN_filter_lastN {α : Type} [DecidableEq α] (n : Nat) (t : List α) (k : α)
    (h : t.Nodup) :
    lastN n ((lastN (n + 1) t).filter (fun x => x ≠ k))
      = lastN n (t.filter (fun x => x ≠ k)) := by
  by_cases hle : t.length ≤ n + 1
  · rw [lastN_of_length_le _ _ hle]
  · push_neg at hle
    have hb : lastN (n + 1) t = t.drop (t.length - (n + 1)) := rfl
    have hlenb : (t.drop (t.length - (n + 1))).length = n + 1 := by
      simp only [List.length_drop]
      omega
    have hnodupb : (t.drop (t.length - (n + 1))).Nodup :=
      (List.drop_sublist _ t).nodup h
    have hfilterlen :
        n ≤ ((t.drop (t.length - (n + 1))).filter (fun x => x ≠ k)).length := by
      have := length_filter_ne_ge (t.drop (t.length - (n + 1))) k hnodupb
      omega
    calc lastN n ((lastN (n + 1) t).filter (fun x => x ≠ k))
        = lastN n ((t.drop (t.length - (n + 1))).filter (fun x => x ≠ k)) := by rw [hb]
      _ = lastN n ((t.take (t.length - (n + 1))).filter (fun x => x ≠ k)
            ++ (t.drop (t.length - (n + 1))).filter (fun x => x ≠ k)) :=
          (lastN_append_left _ _ _ hfilterlen).symm
      _ = lastN n ((t.take (t.length - (n + 1)) ++ t.drop (t.length - (n + 1))).filter
            (fun x => x ≠ k)) := by rw [List.filter_append]
      _ = lastN n (t.filter (fun x => x ≠ k)) := by rw [List.take_append_drop]

lemma map_fst_filter_ne {K V : Type} [DecidableEq K] (c : List (K × V)) (k : K) :
    (c.filter (fun p => p.1 ≠ k)).map Prod.fst
      = (c.map Prod.fst).filter (fun x => x ≠ k) := by
  induction c with
  | nil => rfl
  | cons a c ih =>
    simp only [List.filter_cons, ne_eq, decide_not] at ih ⊢
    by_cases h : a.1 = k
    · simp [h, ih]
    · simp [h, ih]

lemma touchKey_nodup {K : Type} [DecidableEq K] (t : List K) (k : K) (h : t.Nodup) :
    (touchKey t k).Nodup := by
  unfold touchKey
  rw [List.nodup_append]
  refine ⟨h.filter _, List.nodup_singleton k, ?_⟩
  intro a ha hb
  have hak : a ≠ k := by
    have := (List.mem_filter.mp ha).2
    simpa using this
  simp only [List.mem_singleton] at hb
  exact hak hb

lemma map_fst_evictTo {K V : Type} (maxSize : Nat) (c : List (K × V)) :
    (evictTo maxSize c).map Prod.fst = lastN maxSize (c.map Prod.fst) := by
  unfold evictTo lastN
  rw [List.map_drop, List.length_map]

lemma cacheStep_inv {K V : Type} [DecidableEq K] (N : Nat) (c : List (K × V))
    (t : List K) (h1 : c.map Prod.fst = lastN N t) (h2 : t.Nodup) (op : CacheOp K V) :
    ((cacheStep N (c, t) op).1.map Prod.fst = lastN N (cacheStep N (c, t) op).2)
      ∧ (cacheStep N (c, t) op).2.Nodup := by
  cases op with
  | setOp k v =>
    refine ⟨?_, touchKey_nodup t k h2⟩
    show (cacheSet N c k v).map Prod.fst = lastN N (touchKey t k)
    unfold cacheSet touchKey
    rw [map_fst_evictTo, List.map_append, map_fst_filter_ne, h1]
    show lastN N ((lastN N t).filter (fun x => x ≠ k) ++ [k])
      = lastN N (t.filter (fun x => x ≠ k) ++ [k])
    cases N with
    | zero => rw [lastN_zero, lastN_zero]
    | succ n =>
      rw [lastN_append_singleton, lastN_append_singleton,
        lastN_filter_lastN n t k h2]
  | getOp k =>
    show ((cacheStep N (c, t) (CacheOp.getOp k)).1.map Prod.fst
        = lastN N (cacheStep N (c, t) (CacheOp.getOp k)).2)
      ∧ (cacheStep N (c, t) (CacheOp.getOp k)).2.Nodup
    cases hfind : c.find? (fun p => p.1 = k) with
    | none =>
      simp only [cacheStep, cacheGet, hfind]
      exact ⟨h1, h2⟩
    | some p =>
      simp only [cacheStep, cacheGet, hfind]
      refine ⟨?_, touchKey_nodup t k h2⟩
      have hp : p.1 = k := by simpa using List.find?_some hfind
      have hmem : k ∈ lastN N t := by
        rw [← h1, ← hp]
        exact List.mem_map_of_mem Prod.fst (List.mem_of_find?_eq_some hfind)
      cases N with
      | zero =>
        rw [lastN_zero] at hmem
        cases hmem
      | succ n =>
        show ((c.filter (fun q => q.1 ≠ k) ++ [(k, p.2)]).map Prod.fst)
          = lastN (n + 1) (touchKey t k)
        rw [List.map_append, map_fst_filter_ne, h1]
        unfold touchKey
        rw [lastN_append_singleton]
        show (lastN (n + 1) t).filter (fun x => x ≠ k) ++ [k]
          = lastN n (t.filter (fun x => x ≠ k)) ++ [k]
        have hnodupl : (lastN (n + 1) t).Nodup := (List.drop_sublist _ t).nodup h2
        have hlen : ((lastN (n + 1) t).filter (fun x => x ≠ k)).length ≤ n := by
          rw [length_filter_ne_of_mem _ k hnodupl hmem]
          have := lastN_length_le (n + 1) t
          omega
        rw [← lastN_of_length_le n _ hlen, lastN_filter_lastN n t k h2]

lemma cacheRun_aux {K V : Type} [DecidableEq K] (N : Nat) (ops : List (CacheOp K V)) :
    ∀ s : List (K × V) × List K, s.1.map Prod.fst = lastN N s.2 → s.2.Nodup →
      ((ops.foldl (cacheStep N) s).1.map Prod.fst
          = lastN N (ops.foldl (cacheStep N) s).2)
        ∧ (ops.foldl (cacheStep N) s).2.Nodup := by
  induction ops with
  | nil =>
    intro s h1 h2
    exact ⟨h1, h2⟩
  | cons op ops ih =>
    intro s h1 h2
    have hstep := cacheStep_inv N s.1 s.2 h1 h2 op
    exact ih (cacheStep N (s.1, s.2) op) hstep.1 hstep.2

/-- C5: for every sequence of MessageCache.set and MessageCache.get
operations on a cache of capacity N, the resident entries (in
least-recently-used-first order) are exactly the suffix of the last N
distinct touched keys of the touch recency list, where a touch is an
insertion by set or a successful get; in particular, once more than N
distinct keys have been touched, the resident key set is exactly the N
most-recently-touched keys, the evicted key is always the
least-recently-used one, and size() never exceeds the capacity (the bound
holds after every prefix of the sequence, since ops ranges over all
sequences). -/
theorem cache_lru_resident_set {K V : Type} [DecidableEq K] (N : Nat)
    (ops : List (CacheOp K V)) :
    (cacheRun N ops).1.map Prod.fst = lastN N (cacheRun N ops).2
      ∧ (cacheRun N ops).2.Nodup
      ∧ (cacheRun N ops).1.length ≤ N := by
  have h := cacheRun_aux N ops ([], []) (by simp [lastN]) List.nodup_nil
  refine ⟨h.1, h.2, ?_⟩
  have hlen := congrArg List.length h.1
  rw [List.length_map] at hlen
  show (List.foldl (cacheStep N) ([], []) ops).1.length ≤ N
  rw [hlen]
  exact lastN_length_le N _

/-! ## Lookup preservation lemmas -/

lemma find?_filter_ne {α β : Type} [DecidableEq β] (f : α → β) (l : List α)
    (k k' : β) (h : k' ≠ k) :
    (l.filter (fun x => f x ≠ k)).find? (fun x => f x = k')
      = l.find? (fun x => f x = k') := by
  induction l with
  | nil => rfl
  | cons a l ih =>
    rw [List.filter_cons]
    by_cases ha : f a = k'
    · have hak : (decide (f a ≠ k)) = true := by
        simp only [ne_eq, decide_eq_true_eq]
        rw [ha]
        exact h
      rw [if_pos hak, List.find?_cons_of_pos _ (by simpa using ha),
        List.find?_cons_of_pos _ (by simpa using ha)]
    · by_cases hk : f a = k
      · have hak : (decide (f a ≠ k)) = false := by simp [hk]
        rw [hak]
        simp only [Bool.false_eq_true, if_false]
        rw [ih, List.find?_cons_of_neg _ (by simpa using ha)]
      · have hak : (decide (f a ≠ k)) = true := by simp [hk]
        rw [if_pos hak, List.find?_cons_of_neg _ (by simpa using ha),
          List.find?_cons_of_neg _ (by simpa using ha)]
        exact ih

lemma lookupCache_promote {K V : Type} [DecidableEq K] (c : List (K × V)) (k : K)
    (p : K × V) (hfind : c.find? (fun q => q.1 = k) = some p) (k' : K) :
    lookupCache (c.filter (fun q => q.1 ≠ k) ++ [(k, p.2)]) k'
      = lookupCache c k' := by
  unfold lookupCache
  by_cases hk : k' = k
  · subst hk
    rw [hfind]
    have hnone : (c.filter (fun q => q.1 ≠ k')).find? (fun q => q.1 = k') = none := by
      rw [List.find?_eq_none]
      intro x hx
      have hne := (List.mem_filter.mp hx).2
      simp only [ne_eq, decide_eq_true_eq] at hne ⊢
      exact hne
    rw [List.find?_append, hnone, Option.none_or]
    have hp : p.1 = k' := by simpa using List.find?_some hfind
    rw [List.find?_cons_of_pos _ (by simp)]
    simp
  · rw [List.find?_append, find?_filter_ne Prod.fst c k k' hk]
    cases hc : c.find? (fun q : K × V => q.1 = k') with
    | some q => rfl
    | none =>
      rw [Option.none_or, List.find?_eq_none.mpr ?_]
      intro x hx
      simp only [List.mem_singleton] at hx
      subst hx
      simp only [decide_eq_true_eq]
      intro hkk
      exact hk hkk.symm

lemma lookupCache_delete_ne {K V : Type} [DecidableEq K] (c : List (K × V))
    (k k' : K) (h : k' ≠ k) :
    lookupCache (cacheDeleteKey c k) k' = lookupCache c k' := by
  unfold lookupCache cacheDeleteKey
  rw [find?_filter_ne Prod.fst c k k' h]

lemma resolveMsg_lookup_preserved (s : Stores) (k : MsgKey) :
    (∀ k', lookupCache (resolveMsg s k).2.cache k' = lookupCache s.cache k')
      ∧ (resolveMsg s k).2.db = s.db := by
  cases hfind : s.cache.find? (fun p => p.1 = k) with
  | some p =>
    have hres : resolveMsg s k
        = (some p.2, ⟨s.cache.filter (fun q => q.1 ≠ k) ++ [(k, p.2)], s.db⟩) := by
      simp [resolveMsg, cacheGet, hfind]
    rw [hres]
    exact ⟨lookupCache_promote s.cache k p hfind, rfl⟩
  | none =>
    cases hdb : s.db.find? (fun m => keyOf m = k) with
    | some m =>
      have hres : resolveMsg s k = (some m, s) := by
        simp [resolveMsg, cacheGet, hfind, hdb]
      rw [hres]
      exact ⟨fun k' => rfl, rfl⟩
    | none =>
      have hres : resolveMsg s k = (none, s) := by
        simp [resolveMsg, cacheGet, hfind, hdb]
      rw [hres]
      exact ⟨fun k' => rfl, rfl⟩

/-- C3 counterexample: for the outgoing edit editInpC3 with
notify_on_edit = false, the handler sends no notification, but contrary to
the claim it does NOT update the stored record: the Hot Cache still
holds the old text ("old", not "new") and the Durable Store row is
untouched, because handle_edited_business_message returns from the
suppression check before reaching the update code. -/
theorem edit_suppression_counterexample :
    (handleEdit editInpC3 storesC3).1 = []
      ∧ (handleEdit editInpC3 storesC3).2 = storesC3
      ∧ lookupCache (handleEdit editInpC3 storesC3).2.cache kC3 = some recC3
      ∧ ¬ lookupCache (handleEdit editInpC3 storesC3).2.cache kC3
          = some { recC3 with message_text := some "new" } := by
  refine ⟨by decide, by decide, by decide, ?_⟩
  intro h
  have : recC3 = { recC3 with message_text := some "new" } := by
    have h2 : lookupCache (handleEdit editInpC3 storesC3).2.cache kC3
        = some recC3 := by decide
    rw [h2] at h
    exact Option.some.inj h
  simp [recC3] at this

/-- C3 amended: for every outgoing edit event whose owner has the
outgoing-notification preference disabled, the edit handler sends no
notification AND performs no update: the event is discarded entirely,
leaving every Hot Cache lookup and the Durable Store unchanged (the code
returns from the suppression check before the comparison and before the
store-update code). -/
theorem edit_suppression_discards (inp : EditInput) (s : Stores)
    (ho : inp.isOutgoing = true) (hn : inp.notifyOnEdit = false) :
    (handleEdit inp s).1 = []
      ∧ (∀ k', lookupCache (handleEdit inp s).2.cache k' = lookupCache s.cache k')
      ∧ (handleEdit inp s).2.db = s.db := by
  have hpres := resolveMsg_lookup_preserved s inp.key
  unfold handleEdit
  split
  · rename_i s1 heq
    rw [heq] at hpres
    exact ⟨rfl, hpres.1, hpres.2⟩
  · rename_i stored s1 heq
    rw [heq] at hpres
    rw [if_pos (by rw [ho, hn]; rfl)]
    exact ⟨rfl, hpres.1, hpres.2⟩

/-- Witness for the amended C3 theorem at the concrete scenario. -/
theorem edit_suppression_discards_witness :
    (handleEdit editInpC3 storesC3).1 = []
      ∧ lookupCache (handleEdit editInpC3 storesC3).2.cache kC3
          = lookupCache storesC3.cache kC3
      ∧ (handleEdit editInpC3 storesC3).2.db = storesC3.db := by
  have h := edit_suppression_discards editInpC3 storesC3 rfl rfl
  exact ⟨h.1, h.2.1 kC3, h.2.2⟩

/-! ## Claim C8: empty versus absent text in the edit delta -/

/-- C8 counterexample: with the stored snapshot text None (absent) and the
new text "" (empty) — or vice versa — text_changed evaluates to false,
not true as the claim states: the normalization x or "[пусто]" maps both
None and "" to the same sentinel. -/
theorem text_sentinel_counterexample :
    text_changed none (some "") = false
      ∧ text_changed (some "") none = false := by decide

/-- C8 amended: the edit reconciler's normalization collapses an absent
(None) text and an empty text to the SAME sentinel "[пусто]", so for every
edit between an absent and an empty text value, text_changed evaluates to
false (the two are indistinguishable, not distinct). -/
theorem text_sentinel_collapse (oldT newT : Option String)
    (h1 : oldT = none ∨ oldT = some "") (h2 : newT = none ∨ newT = some "") :
    normText oldT = "[пусто]"
      ∧ normText newT = "[пусто]"
      ∧ text_changed oldT newT = false := by
  cases h1 with
  | inl h => cases h2 with
    | inl h' => subst h; subst h'; decide
    | inr h' => subst h; subst h'; decide
  | inr h => cases h2 with
    | inl h' => subst h; subst h'; decide
    | inr h' => subst h; subst h'; decide

/-- Witness for the amended C8 theorem: stored text None, new text "". -/
theorem text_sentinel_collapse_witness :
    normText none = "[пусто]"
      ∧ normText (some "") = "[пусто]"
      ∧ text_changed none (some "") = false :=
  text_sentinel_collapse none (some "") (Or.inl rfl) (Or.inr rfl)

/-! ## Claim C9: no-op edit frame property -/

/-- C9: for every edit event whose normalized text, content type and media
fingerprint all coincide with the resolved stored snapshot, the edit
handler sends no notification and mutates neither store: every Hot Cache
lookup and the Durable Store list are unchanged when the handler
returns. -/
theorem edit_noop_frame (inp : EditInput) (s : Stores) (r : MsgRec)
    (hr : (resolveMsg s inp.key).1 = some r)
    (ht : inp.newType = r.content_type)
    (hx : text_changed r.message_text inp.newText = false)
    (hm : media_changed r.file_id inp.newFileId = false) :
    (handleEdit inp s).1 = []
      ∧ (∀ k', lookupCache (handleEdit inp s).2.cache k' = lookupCache s.cache k')
      ∧ (handleEdit inp s).2.db = s.db := by
  have hpres := resolveMsg_lookup_preserved s inp.key
  unfold handleEdit
  split
  · rename_i s1 heq
    rw [heq] at hr
    exact absurd hr (by simp)
  · rename_i stored s1 heq
    rw [heq] at hpres
    rw [heq] at hr
    have hsr : stored = r := by simpa using hr
    subst hsr
    by_cases hsup : (inp.isOutgoing && !inp.notifyOnEdit) = true
    · rw [if_pos hsup]
      exact ⟨rfl, hpres.1, hpres.2⟩
    · rw [if_neg hsup]
      have htb : (inp.newType != stored.content_type) = false := by
        rw [ht]
        exact bne_self_eq_false _
      rw [if_pos (by rw [htb, hx, hm]; rfl)]
      exact ⟨rfl, hpres.1, hpres.2⟩

/-- Witness for the C9 theorem at the concrete no-op scenario. -/
theorem edit_noop_frame_witness :
    (handleEdit editInpC9 storesC9).1 = []
      ∧ lookupCache (handleEdit editInpC9 storesC9).2.cache kC9
          = lookupCache storesC9.cache kC9
      ∧ (handleEdit editInpC9 storesC9).2.db = storesC9.db := by
  have h := edit_noop_frame editInpC9 storesC9 recC9 (by decide) (by decide)
    (by decide) (by decide)
  exact ⟨h.1, h.2.1 kC9, h.2.2⟩

/-- C4: on the resolved deletion batch
[sticker:A, sticker:A, sticker:A, text:"hi", sticker:B] with distinct
fingerprints A and B, the grouping pass emits exactly three notification
units, in order: one collapsed group for A with count 3 and the single
representative sample, one single notification for the text message, and
one single notification for sticker B. -/
theorem sticker_grouping_example :
    processBatch [stickerA1, stickerA2, stickerA3, textHi, stickerB]
      = [NotifUnit.stickerGroup 3 stickerA1, NotifUnit.textSingle textHi,
          NotifUnit.mediaSingle stickerB] := by decide

/-- C2 counterexample: on delInpC2 the handler deletes the suppressed
outgoing record (key (1,2,10)) from the Durable Store during collection,
before any archival write, and no archived set ever contains that key —
so the claimed property is false for a resolved record of the batch that
falls under the owner's outgoing suppression. -/
theorem deletion_suppressed_purge_counterexample :
    ¬ archiveBeforeDelete (handleDeleted delInpC2).1 := by
  intro h
  obtain ⟨j, rows, hj, hget, hmem⟩ := h 1 ⟨1, 2, 10⟩ (by decide)
  have hj0 : j = 0 := by omega
  subst hj0
  rw [show (handleDeleted delInpC2).1[0]?
      = some (DelEvent.cacheDelete ⟨1, 2, 10⟩) from by decide] at hget
  simp at hget

lemma resolvePure_eq (s : Stores) (k : MsgKey) :
    resolvePure s k
      = match lookupCache s.cache k with
        | some v => some v
        | none => s.db.find? (fun m => keyOf m = k) := by
  unfold resolvePure resolveMsg cacheGet lookupCache
  cases hfind : s.cache.find? (fun p => p.1 = k) with
  | some p => simp
  | none => cases s.db.find? (fun m => keyOf m = k) <;> simp

lemma resolvePure_preserved_of (s s' : Stores)
    (hc : ∀ k', lookupCache s'.cache k' = lookupCache s.cache k')
    (hd : s'.db = s.db) (k' : MsgKey) : resolvePure s' k' = resolvePure s k' := by
  rw [resolvePure_eq, resolvePure_eq, hc k', hd]

lemma resolvePure_resolveMsg (s : Stores) (k k' : MsgKey) :
    resolvePure (resolveMsg s k).2 k' = resolvePure s k' := by
  have h := resolveMsg_lookup_preserved s k
  exact resolvePure_preserved_of s (resolveMsg s k).2 h.1 h.2 k'

lemma find?_filter_self {α β : Type} [DecidableEq β] (f : α → β) (l : List α)
    (k : β) : (l.filter (fun x => f x ≠ k)).find? (fun x => f x = k) = none := by
  rw [List.find?_eq_none]
  intro x hx
  have h := (List.mem_filter.mp hx).2
  simp only [ne_eq, decide_eq_true_eq] at h
  simpa using h

lemma resolvePure_delete_self (s : Stores) (k : MsgKey) :
    resolvePure ⟨cacheDeleteKey s.cache k, dbDeleteRows s.db k⟩ k = none := by
  rw [resolvePure_eq]
  have h1 : lookupCache (cacheDeleteKey s.cache k) k = none := by
    unfold lookupCache cacheDeleteKey
    rw [find?_filter_self Prod.fst s.cache k]
    rfl
  rw [h1]
  exact find?_filter_self keyOf s.db k

lemma resolvePure_delete_ne (s : Stores) (k k' : MsgKey) (h : k' ≠ k) :
    resolvePure ⟨cacheDeleteKey s.cache k, dbDeleteRows s.db k⟩ k'
      = resolvePure s k' := by
  rw [resolvePure_eq, resolvePure_eq]
  have h1 : lookupCache (cacheDeleteKey s.cache k) k' = lookupCache s.cache k' :=
    lookupCache_delete_ne s.cache k k' h
  rw [h1]
  cases hc : lookupCache s.cache k' with
  | some v => rfl
  | none => exact find?_filter_ne keyOf s.db k k' h

lemma resolvePure_key (s : Stores) (k : MsgKey) (m : MsgRec)
    (hw : wfCache s.cache) (h : resolvePure s k = some m) : keyOf m = k := by
  rw [resolvePure_eq] at h
  cases hc : lookupCache s.cache k with
  | some v =>
    rw [hc] at h
    have hmv : v = m := by simpa using h
    unfold lookupCache at hc
    cases hfind : s.cache.find? (fun p => p.1 = k) with
    | none =>
      rw [hfind] at hc
      simp at hc
    | some p =>
      rw [hfind] at hc
      have hv : p.2 = v := by simpa using hc
      have hp1 : p.1 = k := by simpa using List.find?_some hfind
      have hkp := hw p (List.mem_of_find?_eq_some hfind)
      rw [← hmv, ← hv, hkp, hp1]
  | none =>
    rw [hc] at h
    have := List.find?_some h
    simpa using this

lemma wfCache_deleteKey (c : List (MsgKey × MsgRec)) (k : MsgKey)
    (hw : wfCache c) : wfCache (cacheDeleteKey c k) := by
  intro p hp
  exact hw p (List.mem_filter.mp hp).1

lemma wfCache_resolveMsg (s : Stores) (k : MsgKey) (hw : wfCache s.cache) :
    wfCache (resolveMsg s k).2.cache := by
  cases hfind : s.cache.find? (fun p => p.1 = k) with
  | some p =>
    have hres : (resolveMsg s k).2
        = ⟨s.cache.filter (fun q => q.1 ≠ k) ++ [(k, p.2)], s.db⟩ := by
      simp [resolveMsg, cacheGet, hfind]
    rw [hres]
    intro q hq
    rcases List.mem_append.mp hq with hq1 | hq2
    · exact hw q (List.mem_filter.mp hq1).1
    · simp only [List.mem_singleton] at hq2
      subst hq2
      have hp1 : p.1 = k := by simpa using List.find?_some hfind
      have hkp := hw p (List.mem_of_find?_eq_some hfind)
      show keyOf p.2 = k
      rw [hkp, hp1]
  | none =>
    cases hdb : s.db.find? (fun m => keyOf m = k) with
    | some m =>
      have hres : (resolveMsg s k).2 = s := by
        simp [resolveMsg, cacheGet, hfind, hdb]
      rw [hres]
      exact hw
    | none =>
      have hres : (resolveMsg s k).2 = s := by
        simp [resolveMsg, cacheGet, hfind, hdb]
      rw [hres]
      exact hw

lemma collectStep_inv (notify : Bool) (ownerId chatId : Int) (st : CollectSt)
    (msgId : Int) (h : collectInv notify st) :
    collectInv notify (collectStep notify ownerId chatId st msgId) := by
  obtain ⟨hw, hdel, hbatch⟩ := h
  unfold collectStep
  split
  · rename_i s2 heq
    have hs2 : (resolveMsg st.stores ⟨ownerId, chatId, msgId⟩).2 = s2 := by
      rw [heq]
    refine ⟨?_, ?_, ?_⟩
    · rw [← hs2]
      exact wfCache_resolveMsg st.stores _ hw
    · intro k hk
      rw [← hs2, resolvePure_resolveMsg]
      exact hdel k hk
    · intro m hm
      rw [← hs2, resolvePure_resolveMsg]
      exact hbatch m hm
  · rename_i m s2 heq
    have hs2 : (resolveMsg st.stores ⟨ownerId, chatId, msgId⟩).2 = s2 := by
      rw [heq]
    have hres1 : resolvePure st.stores ⟨ownerId, chatId, msgId⟩ = some m := by
      unfold resolvePure
      rw [heq]
    have hw2 : wfCache s2.cache := by
      rw [← hs2]
      exact wfCache_resolveMsg st.stores _ hw
    have hpres : ∀ k', resolvePure s2 k' = resolvePure st.stores k' := by
      intro k'
      rw [← hs2, resolvePure_resolveMsg]
    split
    · rename_i hsupp
      refine ⟨?_, ?_, ?_⟩
      · exact wfCache_deleteKey s2.cache _ hw2
      · intro k hk
        rcases List.mem_append.mp hk with hold | hnew
        · by_cases hkk : k = (⟨ownerId, chatId, msgId⟩ : MsgKey)
          · subst hkk
            exact resolvePure_delete_self s2 _
          · rw [resolvePure_delete_ne s2 _ k hkk, hpres k]
            exact hdel k hold
        · have hkk : k = (⟨ownerId, chatId, msgId⟩ : MsgKey) := by
            simp only [List.mem_cons, List.mem_singleton, List.not_mem_nil,
              or_false] at hnew
            rcases hnew with h1 | h2
            · cases h1
            · exact DelEvent.dbDelete.inj h2
          subst hkk
          exact resolvePure_delete_self s2 _
      · intro m' hm'
        obtain ⟨hres', hsupp'⟩ := hbatch m' hm'
        have hne : keyOf m' ≠ (⟨ownerId, chatId, msgId⟩ : MsgKey) := by
          intro hkeq
          rw [hkeq, hres1] at hres'
          have hmm : m = m' := by simpa using hres'
          rw [← hmm] at hsupp'
          rw [show suppressible notify m = true from hsupp] at hsupp'
          cases hsupp'
        constructor
        · rw [resolvePure_delete_ne s2 _ _ hne, hpres]
          exact hres'
        · exact hsupp'
    · rename_i hsupp
      refine ⟨hw2, ?_, ?_⟩
      · intro k hk
        rw [hpres k]
        exact hdel k hk
      · intro m' hm'
        rcases List.mem_append.mp hm' with hold | hnew
        · obtain ⟨hres', hsupp'⟩ := hbatch m' hold
          exact ⟨by rw [hpres]; exact hres', hsupp'⟩
        · simp only [List.mem_singleton] at hnew
          subst hnew
          have hkm : keyOf m' = (⟨ownerId, chatId, msgId⟩ : MsgKey) :=
            resolvePure_key st.stores _ m' hw hres1
          refine ⟨?_, ?_⟩
          · rw [hpres, hkm]
            exact hres1
          · unfold suppressible
            simpa using hsupp

lemma collectPhase_inv (inp : DelInput) (hw : wfCache inp.stores.cache) :
    collectInv inp.notifyOnEdit (collectPhase inp) := by
  have hgen : ∀ (ids : List Int) (st : CollectSt), collectInv inp.notifyOnEdit st →
      collectInv inp.notifyOnEdit
        (ids.foldl (collectStep inp.notifyOnEdit inp.ownerId inp.chatId) st) := by
    intro ids
    induction ids with
    | nil => intro st h; exact h
    | cons a t ih =>
      intro st h
      exact ih _ (collectStep_inv inp.notifyOnEdit inp.ownerId inp.chatId st a h)
  apply hgen
  refine ⟨hw, ?_, ?_⟩
  · intro k hk
    simp at hk
  · intro m hm
    simp at hm

lemma collect_no_batch_delete (inp : DelInput) (hw : wfCache inp.stores.cache)
    (m : MsgRec) (hm : m ∈ (collectPhase inp).batch) :
    DelEvent.dbDelete (keyOf m) ∉ (collectPhase inp).events := by
  intro hmem
  have h := collectPhase_inv inp hw
  have h1 := h.2.1 (keyOf m) hmem
  have h2 := (h.2.2 m hm).1
  rw [h1] at h2
  cases h2

lemma keyOf_markDeleted (m : MsgRec) : keyOf (markDeleted m) = keyOf m := rfl

/-- C2 amended: in the deletion notification flow, every record of the
notification batch has its Durable Store deletions issued only after the
archival write ATTEMPT for the exact batch set (content types rewritten to
"DELETED (type)") has completed — the attempt's failure is swallowed and
does not prevent the deletions; outgoing records suppressed by the
owner's notification preference are excluded: they are deleted during
collection without any archival.  Stated for a well-formed cache and an
available archive adapter. -/
theorem deletion_flow_archive_before_purge (inp : DelInput)
    (hw : wfCache inp.stores.cache) (hg : inp.googleAvailable = true)
    (k : MsgKey) (i : Nat)
    (hk : k ∈ (collectPhase inp).batch.map keyOf)
    (hi : (handleDeleted inp).1[i]? = some (DelEvent.dbDelete k)) :
    ∃ j : Nat, j < i
      ∧ (handleDeleted inp).1[j]? = some (DelEvent.archiveAttempt
          ((collectPhase inp).batch.map markDeleted) inp.archiveOk)
      ∧ k ∈ ((collectPhase inp).batch.map markDeleted).map keyOf := by
  obtain ⟨m, hmb, hmk⟩ := List.mem_map.mp hk
  have hbne : (collectPhase inp).batch.isEmpty = false := by
    cases hb : (collectPhase inp).batch with
    | nil =>
      rw [hb] at hmb
      cases hmb
    | cons a t => rfl
  have htr : (handleDeleted inp).1
      = (collectPhase inp).events
        ++ (DelEvent.archiveAttempt ((collectPhase inp).batch.map markDeleted)
              inp.archiveOk
            :: ((processBatch (collectPhase inp).batch).map DelEvent.notify
              ++ ((collectPhase inp).batch.map
                  (fun m' => [DelEvent.cacheDelete (purgeKey inp m'),
                    DelEvent.dbDelete (purgeKey inp m')])).flatten)) := by
    simp [handleDeleted, hbne, logDeletedMessages, hg, List.append_assoc]
  have harch : (handleDeleted inp).1[(collectPhase inp).events.length]?
      = some (DelEvent.archiveAttempt ((collectPhase inp).batch.map markDeleted)
          inp.archiveOk) := by
    rw [htr, List.getElem?_append_right (Nat.le_refl _)]
    simp
  have hmem : k ∈ ((collectPhase inp).batch.map markDeleted).map keyOf := by
    rw [← hmk, ← keyOf_markDeleted m]
    exact List.mem_map_of_mem keyOf (List.mem_map_of_mem markDeleted hmb)
  refine ⟨(collectPhase inp).events.length, ?_, harch, hmem⟩
  rcases Nat.lt_trichotomy i (collectPhase inp).events.length with hlt | heqi | hgt
  · exfalso
    rw [htr, List.getElem?_append_left hlt] at hi
    have : DelEvent.dbDelete k ∈ (collectPhase inp).events := List.getElem?_mem hi
    rw [← hmk] at this
    exact collect_no_batch_delete inp hw m hmb this
  · exfalso
    rw [heqi, harch] at hi
    cases hi
  · exact hgt

/-- Witness for the amended C2 theorem: on delInpC2 the batch record
(key (1,2,11)) is purged at trace position 5, strictly after the archival
attempt of the batch. -/
theorem deletion_flow_archive_before_purge_witness :
    ∃ j : Nat, j < 5
      ∧ (handleDeleted delInpC2).1[j]? = some (DelEvent.archiveAttempt
          ((collectPhase delInpC2).batch.map markDeleted) delInpC2.archiveOk)
      ∧ (⟨1, 2, 11⟩ : MsgKey)
          ∈ ((collectPhase delInpC2).batch.map markDeleted).map keyOf :=
  deletion_flow_archive_before_purge delInpC2
    (by intro p hp; cases hp) rfl ⟨1, 2, 11⟩ 5 (by decide) (by decide)

/-! ## Claim C1: archive failure aborts the run before any deletion -/

/-- C1: for every backup run over a non-empty Durable Store in which the
Cold Archive batch write raises, the run issues no MessagesDB.delete
calls, records exactly one Backup Cycle with status "failed" carrying the
error message, returns an unsuccessful result with that error, and
leaves the Durable Store rows exactly as they were. -/
theorem backup_archive_failure_aborts (db : List MsgRec) (hne : db ≠ []) :
    (run_backup true db false).deletedKeys = []
      ∧ (run_backup true db false).db = db
      ∧ (run_backup true db false).cycles = [⟨0, "failed", some archiveErrorText⟩]
      ∧ (run_backup true db false).result.success = false
      ∧ (run_backup true db false).result.error = some archiveErrorText := by
  have hbne : db.isEmpty = false := by
    cases db with
    | nil => exact absurd rfl hne
    | cons a t => rfl
  unfold run_backup
  rw [hbne]
  exact ⟨rfl, rfl, rfl, rfl, rfl⟩

/-- Witness for the C1 theorem on a one-row store. -/
theorem backup_archive_failure_aborts_witness :
    (run_backup true [recBk] false).deletedKeys = []
      ∧ (run_backup true [recBk] false).db = [recBk]
      ∧ (run_backup true [recBk] false).cycles
          = [⟨0, "failed", some archiveErrorText⟩]
      ∧ (run_backup true [recBk] false).result.success = false
      ∧ (run_backup true [recBk] false).result.error = some archiveErrorText :=
  backup_archive_failure_aborts [recBk] (by simp)

/-! ## Claim C7: a backup run over an empty store -/

/-- C7 counterexample: a backup run that finds the Durable Store empty
returns success with count 0, but — contrary to the claim — records NO
Backup Cycle audit entry at all: run_backup returns from the empty check
before ever calling BackupsDB.add, so no entry with status "success" and
messages_count 0 exists. -/
theorem backup_empty_counterexample :
    (run_backup true [] true).result = ⟨true, 0, none⟩
      ∧ (run_backup true [] true).cycles = []
      ∧ ¬ ∃ c, c ∈ (run_backup true [] true).cycles
          ∧ c.status = "success" ∧ c.messages_count = 0 := by
  refine ⟨rfl, rfl, ?_⟩
  rintro ⟨c, hc, _, _⟩
  rw [show (run_backup true [] true).cycles = [] from rfl] at hc
  cases hc

/-- C7 amended: a backup run that finds the Durable Store empty returns a
successful result with count 0, issues no deletions, leaves the store
empty, and records no Backup Cycle audit entry (the audit write is
skipped on the empty early-return path). -/
theorem backup_empty_no_cycle (archiveOk : Bool) :
    run_backup true [] archiveOk = ⟨⟨true, 0, none⟩, [], [], []⟩ := by
  cases archiveOk <;> rfl

/-! ## Claim C10: single-attempt, error-swallowing Durable Store calls -/

/-- C10 counterexample: MessagesDB.get does NOT swallow a remote error —
it has no try/except, so the error propagates to the calling handler
(which awaits it unguarded at src/handlers/business.py:105) instead of a
default None being returned. -/
theorem db_get_error_counterexample :
    MessagesDB.get (Remote.err "timeout") = Except.error "timeout"
      ∧ ∀ v : Option MsgRec,
          MessagesDB.get (Remote.err "timeout") ≠ Except.ok v := by
  refine ⟨rfl, ?_⟩
  intro v h
  cases h

/-- C10 amended: the mutating and counting Durable Store operations
(insert/add, update, delete, count) are single-attempt and swallow remote
errors, returning the defaults None, False and 0; the read operations get
and get_by_chat are single-attempt but PROPAGATE remote errors to their
caller. -/
theorem db_single_attempt_defaults (e : String) :
    MessagesDB.add (Remote.err e) = none
      ∧ MessagesDB.update (Remote.err e) = false
      ∧ MessagesDB.delete (Remote.err e) = false
      ∧ MessagesDB.count (Remote.err e) = 0
      ∧ MessagesDB.get (Remote.err e) = Except.error e
      ∧ MessagesDB.get_by_chat (Remote.err e) = Except.error e :=
  ⟨rfl, rfl, rfl, rfl, rfl, rfl⟩

lemma mem_insertDesc (a m : MsgRec) (l : List MsgRec) :
    a ∈ insertDesc m l ↔ a = m ∨ a ∈ l := by
  induction l with
  | nil => simp [insertDesc]
  | cons x xs ih =>
    unfold insertDesc
    by_cases h : x.timestamp ≤ m.timestamp
    · rw [if_pos h]
      simp [List.mem_cons]
    · rw [if_neg h]
      simp only [List.mem_cons, ih]
      tauto

lemma mem_sortDesc (a : MsgRec) (l : List MsgRec) : a ∈ sortDesc l ↔ a ∈ l := by
  induction l with
  | nil => simp [sortDesc]
  | cons x xs ih =>
    simp [sortDesc, mem_insertDesc, ih]

lemma length_insertDesc (m : MsgRec) (l : List MsgRec) :
    (insertDesc m l).length = l.length + 1 := by
  induction l with
  | nil => rfl
  | cons x xs ih =>
    unfold insertDesc
    by_cases h : x.timestamp ≤ m.timestamp
    · rw [if_pos h]
      rfl
    · rw [if_neg h]
      simp [ih]

lemma length_sortDesc (l : List MsgRec) : (sortDesc l).length = l.length := by
  induction l with
  | nil => rfl
  | cons x xs ih =>
    simp [sortDesc, length_insertDesc, ih]

/-- C6: for a history query over Durable Store rows and Cold Archive rows
containing the same composite key with differing text (the Durable Store
holding at most one live row for that key), the merged result contains
the Durable Store version before truncation, never contains the archive
version, and every result record with that key IS the Durable Store
version — Durable Store takes precedence on conflict.  Stated with the
result size large enough that truncation keeps the whole merge. -/
theorem merge_precedence_durable_wins (limit : Nat)
    (durable archive : List MsgRec) (d a : MsgRec)
    (hd : d ∈ durable) (_ha : a ∈ archive)
    (hk : keyOf a = keyOf d) (hx : a.message_text ≠ d.message_text)
    (huniq : ∀ d' ∈ durable, keyOf d' = keyOf d → d' = d)
    (hlim : (mergedByKey durable archive).length ≤ limit) :
    d ∈ mergeHistory limit durable archive
      ∧ a ∉ mergeHistory limit durable archive
      ∧ ∀ r ∈ mergeHistory limit durable archive, keyOf r = keyOf d → r = d := by
  have hlen : (sortDesc (mergedByKey durable archive)).length ≤ limit := by
    rw [length_sortDesc]
    exact hlim
  have htake : mergeHistory limit durable archive
      = sortDesc (mergedByKey durable archive) := by
    unfold mergeHistory
    exact List.take_of_length_le hlen
  have hmemiff : ∀ r : MsgRec, r ∈ mergeHistory limit durable archive
      ↔ r ∈ mergedByKey durable archive := by
    intro r
    rw [htake, mem_sortDesc]
  have hkey : ∀ r ∈ mergedByKey durable archive, keyOf r = keyOf d → r = d := by
    intro r hr hkr
    rcases List.mem_append.mp hr with h1 | h2
    · exact huniq r h1 hkr
    · exfalso
      have hfa := (List.mem_filter.mp h2).2
      rw [List.all_eq_true] at hfa
      have hcon := hfa d hd
      simp only [ne_eq, decide_eq_true_eq] at hcon
      exact hcon hkr.symm
  refine ⟨?_, ?_, ?_⟩
  · rw [hmemiff]
    exact List.mem_append.mpr (Or.inl hd)
  · intro hmem
    have had : a = d := hkey a ((hmemiff a).mp hmem) hk
    rw [had] at hx
    exact hx rfl
  · intro r hr hkr
    exact hkey r ((hmemiff r).mp hr) hkr

/-- Witness for the C6 theorem on a one-row store and archive. -/
theorem merge_precedence_durable_wins_witness :
    dC6 ∈ mergeHistory 10 [dC6] [aC6]
      ∧ aC6 ∉ mergeHistory 10 [dC6] [aC6]
      ∧ ∀ r ∈ mergeHistory 10 [dC6] [aC6], keyOf r = keyOf dC6 → r = dC6 :=
  merge_precedence_durable_wins 10 [dC6] [aC6] dC6 aC6 (by decide) (by decide)
    (by decide) (by decide) (by decide) (by decide)
